import Mathlib

/-!
Shallow embedding of `src/clean_logs.py`.

A Python `str` is modelled as a `List Char` (a sequence of Unicode code
points).  The script’s per-line classifier `clean_logger_line` and the
driver loop of `clean_file` are translated directly; the two calls to
`re.sub` with patterns of the shape  delimiter–emoji–`\s+`  (replacement:
the delimiter alone) are modelled by `reSubDelim`, a left-to-right scan
that replaces every non-overlapping occurrence of the pattern, taking the
whitespace run greedily, exactly as `re.sub` does for these patterns.
-/

set_option maxRecDepth 100000

namespace CleanLogs

/-- The set of code points matched by Python’s regex class `\s` on `str`
patterns (`Py_UNICODE_ISSPACE`). -/
def pySpace (c : Char) : Bool :=
  decide (c.toNat ∈ [0x9, 0xA, 0xB, 0xC, 0xD, 0x1C, 0x1D, 0x1E, 0x1F, 0x20,
    0x85, 0xA0, 0x1680, 0x2028, 0x2029, 0x202F, 0x205F, 0x3000])
  || (decide (0x2000 ≤ c.toNat) && decide (c.toNat ≤ 0x200A))

/-- The backtick delimiter character. -/
def btick : Char := Char.ofNat 0x60

/-- The single-quote delimiter character. -/
def squote : Char := Char.ofNat 0x27

/-- The double-quote delimiter character. -/
def dquote : Char := Char.ofNat 0x22

/-- The three quoting delimiters the script anchors its emoji-stripping
patterns on, in the order the three `re.sub` calls are made. -/
def delims : List Char := [btick, squote, dquote]

/-- The fixed emoji marker list of `clean_logs.py`, in source order.
`⚠️` is the two-code-point sequence U+26A0 U+FE0F; every other entry is a
single code point. -/
def emojis : List (List Char) :=
  [[Char.ofNat 0x1F3AF],                    -- 🎯
   [Char.ofNat 0x2705],                     -- ✅
   [Char.ofNat 0x1F4CA],                    -- 📊
   [Char.ofNat 0x1F4CB],                    -- 📋
   [Char.ofNat 0x1F4ED],                    -- 📭
   [Char.ofNat 0x26A0, Char.ofNat 0xFE0F],  -- ⚠️
   [Char.ofNat 0x274C],                     -- ❌
   [Char.ofNat 0x1F50D],                    -- 🔍
   [Char.ofNat 0x1F9EA],                    -- 🧪
   [Char.ofNat 0x1F513],                    -- 🔓
   [Char.ofNat 0x1F4E6],                    -- 📦
   [Char.ofNat 0x1F511],                    -- 🔑
   [Char.ofNat 0x1F517],                    -- 🔗
   [Char.ofNat 0x1F4C5],                    -- 📅
   [Char.ofNat 0x1F3E5],                    -- 🏥
   [Char.ofNat 0x1F3E2],                    -- 🏢
   [Char.ofNat 0x1F331],                    -- 🌱
   [Char.ofNat 0x1F464],                    -- 👤
   [Char.ofNat 0x1F4C4],                    -- 📄
   [Char.ofNat 0x1F310],                    -- 🌐
   [Char.ofNat 0x2795]]                     -- ➕

/-- Drop the first list as a prefix of the second, if possible. -/
def dropPref : List Char → List Char → Option (List Char)
  | [], l => some l
  | _ :: _, [] => none
  | a :: as, b :: bs => if a = b then dropPref as bs else none

/-- Try to match the regex  `d e \s+`  at the head of `l` (with the
whitespace run taken greedily, as the regex engine does); on success
return the remainder of `l` after the match. -/
def stripPat (d : Char) (e : List Char) : List Char → Option (List Char)
  | [] => none
  | c :: cs =>
    if c = d then
      match dropPref e cs with
      | none => none
      | some q =>
        match q with
        | [] => none
        | x :: xs => if pySpace x then some (xs.dropWhile pySpace) else none
    else none

/-- Fuelled left-to-right scan implementing
`re.sub(d + e + \s+, d, line)`: at each position, if the pattern matches,
emit the delimiter and resume after the match, else copy one character. -/
def goSub (d : Char) (e : List Char) : Nat → List Char → List Char
  | _, [] => []
  | 0, l => l
  | n + 1, c :: cs =>
    match stripPat d e (c :: cs) with
    | some r => d :: goSub d e n r
    | none => c :: goSub d e n cs

/-- Model of `re.sub` for the pattern  delimiter `d`, emoji `e`, `\s+`  with the
delimiter as the replacement, on the whole line. -/
def reSubDelim (d : Char) (e : List Char) (l : List Char) : List Char :=
  goSub d e l.length l

/-- One iteration of the source’s `for emoji in emojis` loop body: the
three `re.sub` calls, backtick first, then single quote, then double
quote. -/
def subThree (e : List Char) (line : List Char) : List Char :=
  reSubDelim dquote e (reSubDelim squote e (reSubDelim btick e line))

/-- The whole `for emoji in emojis` rewriting loop. -/
def stripEmojis (line : List Char) : List Char :=
  emojis.foldl (fun l e => subThree e l) line

/-- The `logger.error`/`logger.warn` branch of the classifier: rewrite
the line if it contains either marker, else leave it alone. -/
def warnErrorPass (line : List Char) : List Char :=
  if "logger.error".toList <:+: line ∨ "logger.warn".toList <:+: line then
    stripEmojis line
  else line

/-- The function `clean_logger_line` from `clean_logs.py`: `none` models Python’s
`None` (delete the line); `some l` models returning line `l`. -/
def clean_logger_line (line : List Char) : Option (List Char) :=
  if "logger.info".toList <:+: line then
    if "===".toList <:+: line then none
    else if emojis.any (fun e => decide (e <:+: line)) then none
    else some (warnErrorPass line)
  else some (warnErrorPass line)

/-- The processing loop of `clean_file`: fold over the input lines,
appending each retained (possibly rewritten) line to `cleaned_lines` and
incrementing `removed_count` for each deleted line.  The pair returned is
(`cleaned_lines`, `removed_count`): the lines written to the output file
and the count the script reports. -/
def clean_file (lines : List (List Char)) : List (List Char) × Nat :=
  lines.foldl
    (fun acc line =>
      match clean_logger_line line with
      | none => (acc.1, acc.2 + 1)
      | some cleaned => (acc.1 ++ [cleaned], acc.2))
    ([], 0)

/-! ### Concrete lines used to instantiate the claims -/

/-- The line `logger.info(’=== start ===’);` -/
def exInfoEq : List Char :=
  "logger.info(".toList ++ squote :: "=== start ===".toList ++ squote :: ");".toList

/-- The line `logger.info(’🎯 start’);` -/
def exInfoEmoji : List Char :=
  "logger.info(".toList ++ squote :: Char.ofNat 0x1F3AF :: Char.ofNat 0x20 ::
    "start".toList ++ squote :: ");".toList

/-- The line `logger.info(’loaded’);` -/
def exInfoPlain : List Char :=
  "logger.info(".toList ++ squote :: "loaded".toList ++ squote :: ");".toList

/-- The line `logger.error(’✅ 🎯 x’);` -/
def exCascadeIn : List Char :=
  "logger.error(".toList ++
    [squote, Char.ofNat 0x2705, Char.ofNat 0x20, Char.ofNat 0x1F3AF, Char.ofNat 0x20] ++
    "x".toList ++ squote :: ");".toList

/-- The line `logger.error(’🎯 x’);` — what the script makes of `exCascadeIn`. -/
def exCascadeMid : List Char :=
  "logger.error(".toList ++
    [squote, Char.ofNat 0x1F3AF, Char.ofNat 0x20] ++
    "x".toList ++ squote :: ");".toList

/-- The line `logger.error(’❌ Something failed’);` -/
def exErrEmoji : List Char :=
  "logger.error(".toList ++
    [squote, Char.ofNat 0x274C, Char.ofNat 0x20] ++
    "Something failed".toList ++ squote :: ");".toList

/-- The line `logger.error(’Something failed’);` -/
def exErrClean : List Char :=
  "logger.error(".toList ++ squote :: "Something failed".toList ++ squote :: ");".toList

/-- The line `logger.error(’🎯 ✅ 🎯 x’);` -/
def exC4in : List Char :=
  "logger.error(".toList ++
    [squote, Char.ofNat 0x1F3AF, Char.ofNat 0x20, Char.ofNat 0x2705, Char.ofNat 0x20,
     Char.ofNat 0x1F3AF, Char.ofNat 0x20] ++ "x".toList ++ squote :: ");".toList

/-- The line `logger.error(’✅ 🎯 x’);` — `exC4in` with only its delimiter-adjacent
emoji-plus-space occurrence removed. -/
def exC4oneRemoved : List Char :=
  "logger.error(".toList ++
    [squote, Char.ofNat 0x2705, Char.ofNat 0x20, Char.ofNat 0x1F3AF, Char.ofNat 0x20] ++
    "x".toList ++ squote :: ");".toList

/-- The line `logger.error(’x’);` -/
def exErrPlain : List Char :=
  "logger.error(".toList ++ squote :: "x".toList ++ squote :: ");".toList

/-- The line `logger.info(’===’); logger.error(’x’);` -/
def exInfoEqErr : List Char :=
  "logger.info(".toList ++ squote :: "===".toList ++ squote :: "); logger.error(".toList
    ++ squote :: "x".toList ++ squote :: ");".toList


/-! ### Basic lemmas about `dropPref` and `stripPat` -/

theorem dropPref_eq_some {e l q : List Char} :
    dropPref e l = some q ↔ l = e ++ q := by
  induction e generalizing l with
  | nil => simp [dropPref]
  | cons a as ih =>
    cases l with
    | nil => simp [dropPref]
    | cons b bs =>
      simp only [dropPref]
      by_cases hab : a = b
      · subst hab
        rw [if_pos rfl, ih]
        simp
      · rw [if_neg hab]
        constructor
        · intro h; cases h
        · intro h
          injection h with h1 _
          exact absurd h1.symm hab

theorem stripPat_some_decomp {d : Char} {e l r : List Char}
    (h : stripPat d e l = some r) :
    ∃ ws, l = d :: (e ++ ws ++ r) ∧ ws ≠ [] ∧ ∀ c ∈ ws, pySpace c = true := by
  cases l with
  | nil => simp [stripPat] at h
  | cons c cs =>
    simp only [stripPat] at h
    by_cases hcd : c = d
    · rw [if_pos hcd] at h
      cases hq : dropPref e cs with
      | none => rw [hq] at h; exact absurd h (by simp)
      | some q =>
        rw [hq] at h
        cases q with
        | nil => exact absurd h (by simp)
        | cons x xs =>
          dsimp only at h
          by_cases hx : pySpace x
          · rw [if_pos hx] at h
            refine ⟨x :: xs.takeWhile pySpace, ?_, by simp, ?_⟩
            · have hcs : cs = e ++ (x :: xs) := dropPref_eq_some.mp hq
              have hr : r = xs.dropWhile pySpace := by
                simpa using h.symm
              subst hcd
              rw [hcs, hr]
              simp [List.takeWhile_append_dropWhile]
            · intro a ha
              rcases List.mem_cons.mp ha with h1 | h2
              · exact h1 ▸ hx
              · exact List.mem_takeWhile_imp h2
          · rw [if_neg hx] at h; exact absurd h (by simp)
    · rw [if_neg hcd] at h; exact absurd h (by simp)

theorem stripPat_length {d : Char} {e l r : List Char}
    (h : stripPat d e l = some r) : r.length < l.length := by
  obtain ⟨ws, hl, hne, -⟩ := stripPat_some_decomp h
  subst hl
  have : 1 ≤ ws.length := by
    cases ws with
    | nil => exact absurd rfl hne
    | cons a as => simp
  simp [List.length_append]
  omega

theorem stripPat_suffix {d : Char} {e l r : List Char}
    (h : stripPat d e l = some r) : r <:+ l := by
  obtain ⟨ws, hl, -, -⟩ := stripPat_some_decomp h
  subst hl
  exact ⟨d :: (e ++ ws), by simp⟩

/-! ### Unfolding equations for `reSubDelim` -/

theorem goSub_congr (d : Char) (e : List Char) :
    ∀ (n m : Nat) (l : List Char), l.length ≤ n → l.length ≤ m →
      goSub d e n l = goSub d e m l := by
  intro n
  induction n with
  | zero =>
    intro m l hn _
    have : l = [] := List.length_eq_zero.mp (Nat.le_zero.mp hn)
    subst this
    cases m <;> rfl
  | succ n ih =>
    intro m l hn hm
    cases l with
    | nil => cases m <;> rfl
    | cons c cs =>
      cases m with
      | zero => simp at hm
      | succ m =>
        show goSub d e (n + 1) (c :: cs) = goSub d e (m + 1) (c :: cs)
        simp only [goSub]
        cases h : stripPat d e (c :: cs) with
        | some r =>
          have hr := stripPat_length h
          simp only [List.length_cons] at hr hn hm
          show d :: goSub d e n r = d :: goSub d e m r
          rw [ih m r (by omega) (by omega)]
        | none =>
          simp only [List.length_cons] at hn hm
          show c :: goSub d e n cs = c :: goSub d e m cs
          rw [ih m cs (by omega) (by omega)]

theorem reSub_nil (d : Char) (e : List Char) : reSubDelim d e [] = [] := rfl

theorem reSub_match {d : Char} {e : List Char} {c : Char} {cs r : List Char}
    (h : stripPat d e (c :: cs) = some r) :
    reSubDelim d e (c :: cs) = d :: reSubDelim d e r := by
  have hr := stripPat_length h
  simp only [List.length_cons] at hr
  show goSub d e (cs.length + 1) (c :: cs) = d :: reSubDelim d e r
  simp only [goSub, h]
  rw [goSub_congr d e cs.length r.length r (by omega) (le_refl _)]
  rfl

theorem reSub_nomatch {d : Char} {e : List Char} {c : Char} {cs : List Char}
    (h : stripPat d e (c :: cs) = none) :
    reSubDelim d e (c :: cs) = c :: reSubDelim d e cs := by
  show goSub d e (cs.length + 1) (c :: cs) = c :: reSubDelim d e cs
  simp only [goSub, h]
  rfl

/-! ### Decomposition helpers for prefixes, suffixes and infixes -/

theorem sfx_cons_cases {s l : List Char} {c : Char} (h : s <:+ c :: l) :
    s = c :: l ∨ s <:+ l := by
  obtain ⟨w, hw⟩ := h
  cases w with
  | nil => exact Or.inl (by simpa using hw)
  | cons x w2 =>
    injection hw with h1 h2
    exact Or.inr ⟨w2, h2⟩

theorem sfx_append_cases {s a b : List Char} (h : s <:+ a ++ b) :
    s <:+ b ∨ ∃ a2, a2 <:+ a ∧ a2 ≠ [] ∧ s = a2 ++ b := by
  induction a with
  | nil => exact Or.inl (by simpa using h)
  | cons c a2 ih =>
    have h2 : s <:+ c :: (a2 ++ b) := by simpa using h
    rcases sfx_cons_cases h2 with h3 | h4
    · exact Or.inr ⟨c :: a2, List.suffix_refl _, by simp, by simpa using h3⟩
    · rcases ih h4 with h5 | ⟨a3, ha, hne, hs⟩
      · exact Or.inl h5
      · exact Or.inr ⟨a3, ha.trans (List.suffix_cons c a2), hne, hs⟩

theorem ifx_cons_cases {t l : List Char} {a : Char} (h : t <:+: a :: l) :
    t <+: a :: l ∨ t <:+: l := by
  obtain ⟨s, w, hsw⟩ := h
  cases s with
  | nil => exact Or.inl ⟨w, by simpa using hsw⟩
  | cons b s2 =>
    injection hsw with h1 h2
    exact Or.inr ⟨s2, w, h2⟩

theorem pfx_head {a : Char} {t cs : List Char} (h : (a :: t) <+: cs) :
    cs.head? = some a := by
  obtain ⟨w, hw⟩ := h
  rw [← hw]
  rfl

/-! ### `stripPat` failure conditions -/

theorem stripPat_nil (d : Char) (e : List Char) : stripPat d e [] = none := rfl

theorem stripPat_none_of_ne {d c : Char} {e cs : List Char} (h : c ≠ d) :
    stripPat d e (c :: cs) = none := by
  simp only [stripPat, if_neg h]

theorem stripPat_none_of_no_pfx {d c : Char} {e cs : List Char}
    (h : ¬ e <+: cs) : stripPat d e (c :: cs) = none := by
  simp only [stripPat]
  by_cases hcd : c = d
  · rw [if_pos hcd]
    cases hq : dropPref e cs with
    | none => rfl
    | some q => exact absurd ⟨q, (dropPref_eq_some.mp hq).symm⟩ h
  · rw [if_neg hcd]

/-! ### `stripPat` success at a delimiter-anchored emoji -/

theorem dropWhile_space_app {ws v : List Char}
    (hsp : ∀ c ∈ ws, pySpace c = true)
    (hv : ∀ c, v.head? = some c → pySpace c = false) :
    (ws ++ v).dropWhile pySpace = v := by
  induction ws with
  | nil =>
    cases v with
    | nil => rfl
    | cons a v2 =>
      simp only [List.nil_append, List.dropWhile_cons, hv a rfl]
      simp
  | cons w ws2 ih =>
    simp only [List.cons_append, List.dropWhile_cons, hsp w (by simp)]
    simp only [if_true]
    exact ih (fun c hc => hsp c (by simp [hc]))

theorem stripPat_block {d : Char} {e ws v : List Char}
    (hws : ws ≠ []) (hsp : ∀ c ∈ ws, pySpace c = true)
    (hv : ∀ c, v.head? = some c → pySpace c = false) :
    stripPat d e (d :: (e ++ ws ++ v)) = some v := by
  have h1 : dropPref e (e ++ ws ++ v) = some (ws ++ v) := by
    rw [List.append_assoc]
    exact dropPref_eq_some.mpr rfl
  simp only [stripPat]
  rw [if_pos trivial, h1]
  cases ws with
  | nil => exact absurd rfl hws
  | cons w ws2 =>
    rw [List.cons_append]
    dsimp only
    rw [if_pos (hsp w (by simp))]
    rw [dropWhile_space_app (fun c hc => hsp c (by simp [hc])) hv]

/-! ### Identity and structure lemmas for `reSubDelim` -/

theorem reSub_id_of_nomatch {d : Char} {e : List Char} :
    ∀ l : List Char, (∀ s, s <:+ l → stripPat d e s = none) → reSubDelim d e l = l := by
  intro l
  induction l with
  | nil => exact fun _ => rfl
  | cons c cs ih =>
    intro h
    rw [reSub_nomatch (h (c :: cs) (List.suffix_refl _))]
    rw [ih (fun s hs => h s (hs.trans (List.suffix_cons c cs)))]

theorem reSub_id_of_not_ifx {d : Char} {e l : List Char} (h : ¬ e <:+: l) :
    reSubDelim d e l = l := by
  apply reSub_id_of_nomatch
  intro s hs
  cases s with
  | nil => rfl
  | cons c cs =>
    apply stripPat_none_of_no_pfx
    intro hp
    apply h
    obtain ⟨t, ht⟩ := hp
    obtain ⟨w, hw⟩ := hs
    exact ⟨w ++ [c], t, by simp [← hw, ← ht]⟩

theorem reSub_append_nomatch {d : Char} {e : List Char} :
    ∀ (u rest : List Char),
      (∀ s, s <:+ u → s ≠ [] → stripPat d e (s ++ rest) = none) →
      reSubDelim d e (u ++ rest) = u ++ reSubDelim d e rest := by
  intro u
  induction u with
  | nil => intro rest _; rfl
  | cons c u2 ih =>
    intro rest h
    have h0 : stripPat d e (c :: (u2 ++ rest)) = none := by
      have := h (c :: u2) (List.suffix_refl _) (by simp)
      simpa using this
    rw [List.cons_append, reSub_nomatch h0]
    rw [ih rest (fun s hs hne => h s (hs.trans (List.suffix_cons c u2)) hne)]
    simp

theorem reSub_sublist (d : Char) (e : List Char) (l : List Char) :
    (reSubDelim d e l).Sublist l := by
  cases l with
  | nil => rw [reSub_nil]
  | cons c cs =>
    cases h : stripPat d e (c :: cs) with
    | some r =>
      rw [reSub_match h]
      obtain ⟨ws, hl, -, -⟩ := stripPat_some_decomp h
      injection hl with h1 h2
      rw [h1, h2]
      refine List.Sublist.cons₂ d ?_
      exact (reSub_sublist d e r).trans (List.sublist_append_right (e ++ ws) r)
    | none =>
      rw [reSub_nomatch h]
      exact List.Sublist.cons₂ c (reSub_sublist d e cs)
termination_by l.length
decreasing_by
  all_goals first
    | exact stripPat_length h
    | (simp only [List.length_cons]; omega)

theorem pfxIfx {a b : List Char} (h : a <+: b) : a <:+: b := by
  obtain ⟨t, ht⟩ := h
  exact ⟨[], t, by simpa using ht⟩

theorem sfxIfx {a b : List Char} (h : a <:+ b) : a <:+: b := by
  obtain ⟨s, hs⟩ := h
  exact ⟨s, [], by simpa using hs⟩

/-- A left-to-right `re.sub` pass never creates a new prefix `t` as long
as the replacement delimiter `d` does not occur in `t`. -/
theorem pfx_of_reSub {t : List Char} {d : Char} {e : List Char} (hd : d ∉ t) :
    ∀ l, t <+: reSubDelim d e l → t <+: l := by
  intro l
  cases l with
  | nil => rw [reSub_nil]; exact id
  | cons c cs =>
    cases h : stripPat d e (c :: cs) with
    | some r =>
      rw [reSub_match h]
      intro hp
      cases t with
      | nil => exact ⟨c :: cs, rfl⟩
      | cons a t2 =>
        have hh := pfx_head hp
        injection hh with ha
        refine absurd ?_ hd
        rw [ha]
        exact List.mem_cons_self a t2
    | none =>
      rw [reSub_nomatch h]
      intro hp
      cases t with
      | nil => exact ⟨c :: cs, rfl⟩
      | cons a t2 =>
        obtain ⟨w, hw⟩ := hp
        injection hw with h1 h2
        have ht2 : t2 <+: cs :=
          pfx_of_reSub (fun hm => hd (List.mem_cons_of_mem a hm)) cs ⟨w, h2⟩
        obtain ⟨w2, hw2⟩ := ht2
        exact ⟨w2, by rw [List.cons_append, hw2, h1]⟩
termination_by l => l.length
decreasing_by
  simp only [List.length_cons]
  omega

/-- A left-to-right `re.sub` pass never creates a new infix occurrence of
`t` as long as the replacement delimiter `d` does not occur in `t`. -/
theorem ifx_of_reSub {t : List Char} {d : Char} {e : List Char} (hd : d ∉ t) :
    ∀ l, t <:+: reSubDelim d e l → t <:+: l := by
  intro l
  cases l with
  | nil => rw [reSub_nil]; exact id
  | cons c cs =>
    cases h : stripPat d e (c :: cs) with
    | some r =>
      rw [reSub_match h]
      intro hi
      rcases ifx_cons_cases hi with hp | hi2
      · refine pfxIfx (pfx_of_reSub (e := e) hd (c :: cs) ?_)
        rw [reSub_match h]
        exact hp
      · have h3 : t <:+: r := ifx_of_reSub hd r hi2
        exact h3.trans (sfxIfx (stripPat_suffix h))
    | none =>
      rw [reSub_nomatch h]
      intro hi
      rcases ifx_cons_cases hi with hp | hi2
      · refine pfxIfx (pfx_of_reSub (e := e) hd (c :: cs) ?_)
        rw [reSub_nomatch h]
        exact hp
      · have h3 : t <:+: cs := ifx_of_reSub hd cs hi2
        exact h3.trans (sfxIfx (List.suffix_cons c cs))
termination_by l => l.length
decreasing_by
  all_goals first
    | exact stripPat_length h
    | (simp only [List.length_cons]; omega)

/-! ### Decidable facts about the fixed marker data -/

theorem emojis_ne_nil : ∀ e ∈ emojis, e ≠ [] := by decide

theorem emojis_heads : ∀ e1 ∈ emojis, ∀ e2 ∈ emojis, e1.head? = e2.head? → e1 = e2 := by decide

theorem emojis_char_unique : ∀ e1 ∈ emojis, ∀ e2 ∈ emojis, ∀ c ∈ e1, c ∈ e2 → e1 = e2 := by
  decide

theorem emojis_nodup : emojis.Nodup := by decide

theorem delims_not_emoji : ∀ d ∈ delims, ∀ e ∈ emojis, d ∉ e := by decide

theorem emoji_chars_not_space : ∀ e ∈ emojis, ∀ c ∈ e, pySpace c = false := by decide

theorem delims_not_space : ∀ d ∈ delims, pySpace d = false := by decide

theorem delims_not_in_info : ∀ d ∈ delims, d ∉ "logger.info".toList := by decide

/-! ### Lifting the `reSubDelim` lemmas to `subThree` and `stripEmojis` -/

theorem subThree_sublist (e line : List Char) : (subThree e line).Sublist line :=
  (reSub_sublist dquote e _).trans
    ((reSub_sublist squote e _).trans (reSub_sublist btick e line))

theorem foldl_subThree_sublist : ∀ (es : List (List Char)) (l : List Char),
    (es.foldl (fun l e => subThree e l) l).Sublist l := by
  intro es
  induction es with
  | nil => intro l; exact List.Sublist.refl l
  | cons e es2 ih =>
    intro l
    exact (ih (subThree e l)).trans (subThree_sublist e l)

theorem stripEmojis_sublist (line : List Char) : (stripEmojis line).Sublist line :=
  foldl_subThree_sublist emojis line

theorem ifx_of_subThree {t : List Char} (h1 : btick ∉ t) (h2 : squote ∉ t)
    (h3 : dquote ∉ t) {e line : List Char} (h : t <:+: subThree e line) : t <:+: line :=
  ifx_of_reSub h1 line (ifx_of_reSub h2 _ (ifx_of_reSub h3 _ h))

theorem ifx_of_foldl {t : List Char} (h1 : btick ∉ t) (h2 : squote ∉ t)
    (h3 : dquote ∉ t) :
    ∀ (es : List (List Char)) (l : List Char),
      t <:+: es.foldl (fun l e => subThree e l) l → t <:+: l := by
  intro es
  induction es with
  | nil => intro l h; exact h
  | cons e es2 ih =>
    intro l h
    exact ifx_of_subThree h1 h2 h3 (ih (subThree e l) h)

theorem ifx_of_stripEmojis {t line : List Char} (h1 : btick ∉ t) (h2 : squote ∉ t)
    (h3 : dquote ∉ t) (h : t <:+: stripEmojis line) : t <:+: line :=
  ifx_of_foldl h1 h2 h3 emojis line h

theorem subThree_id {e line : List Char} (h : ¬ e <:+: line) : subThree e line = line := by
  unfold subThree
  rw [reSub_id_of_not_ifx h, reSub_id_of_not_ifx h, reSub_id_of_not_ifx h]

theorem foldl_subThree_id : ∀ (es : List (List Char)) (l : List Char),
    (∀ e ∈ es, ¬ e <:+: l) → es.foldl (fun l e => subThree e l) l = l := by
  intro es
  induction es with
  | nil => intro l _; rfl
  | cons e es2 ih =>
    intro l h
    rw [List.foldl_cons, subThree_id (h e (by simp))]
    exact ih l (fun e2 he2 => h e2 (by simp [he2]))

theorem stripEmojis_id {line : List Char} (h : ∀ e ∈ emojis, ¬ e <:+: line) :
    stripEmojis line = line :=
  foldl_subThree_id emojis line h

/-! ### Characterizing `clean_logger_line` and `clean_file` -/

theorem clean_none_iff (line : List Char) :
    clean_logger_line line = none ↔
      "logger.info".toList <:+: line ∧
        ("===".toList <:+: line ∨ ∃ e ∈ emojis, e <:+: line) := by
  unfold clean_logger_line
  by_cases h1 : "logger.info".toList <:+: line
  · rw [if_pos h1]
    by_cases h2 : "===".toList <:+: line
    · rw [if_pos h2]
      exact ⟨fun _ => ⟨h1, Or.inl h2⟩, fun _ => rfl⟩
    · rw [if_neg h2]
      by_cases h3 : emojis.any (fun e => decide (e <:+: line))
      · rw [if_pos h3]
        rw [List.any_eq_true] at h3
        simp only [decide_eq_true_eq] at h3
        exact ⟨fun _ => ⟨h1, Or.inr h3⟩, fun _ => rfl⟩
      · rw [if_neg h3]
        simp only [List.any_eq_true, decide_eq_true_eq] at h3
        constructor
        · intro h; cases h
        · rintro ⟨-, h4 | h5⟩
          · exact absurd h4 h2
          · exact absurd h5 h3
  · rw [if_neg h1]
    constructor
    · intro h; cases h
    · rintro ⟨h4, -⟩
      exact absurd h4 h1

theorem clean_some_eq {line : List Char}
    (h : ¬ ("logger.info".toList <:+: line ∧
      ("===".toList <:+: line ∨ ∃ e ∈ emojis, e <:+: line))) :
    clean_logger_line line = some (warnErrorPass line) := by
  cases hc : clean_logger_line line with
  | none => exact absurd ((clean_none_iff line).mp hc) h
  | some l2 =>
    unfold clean_logger_line at hc
    by_cases h1 : "logger.info".toList <:+: line
    · rw [if_pos h1] at hc
      by_cases h2 : "===".toList <:+: line
      · rw [if_pos h2] at hc; cases hc
      · rw [if_neg h2] at hc
        by_cases h3 : emojis.any (fun e => decide (e <:+: line))
        · rw [if_pos h3] at hc; cases hc
        · rw [if_neg h3] at hc
          rw [← hc]
    · rw [if_neg h1] at hc
      rw [← hc]

theorem clean_file_loop : ∀ (lines : List (List Char)) (acc : List (List Char)) (n : Nat),
    lines.foldl
      (fun acc line =>
        match clean_logger_line line with
        | none => (acc.1, acc.2 + 1)
        | some cleaned => (acc.1 ++ [cleaned], acc.2)) (acc, n)
    = (acc ++ lines.filterMap clean_logger_line,
       n + lines.countP (fun l => (clean_logger_line l).isNone)) := by
  intro lines
  induction lines with
  | nil => intro acc n; simp
  | cons l ls ih =>
    intro acc n
    rw [List.foldl_cons]
    cases hc : clean_logger_line l with
    | none =>
      show List.foldl _ (acc, n + 1) ls = _
      rw [ih acc (n + 1)]
      rw [List.filterMap_cons_none hc]
      rw [List.countP_cons_of_pos _ _ (by simp [hc])]
      simp only [Prod.mk.injEq]
      exact ⟨trivial, by omega⟩
    | some c =>
      show List.foldl _ (acc ++ [c], n) ls = _
      rw [ih (acc ++ [c]) n]
      rw [List.filterMap_cons_some hc]
      rw [List.countP_cons_of_neg _ _ (by simp [hc])]
      simp

theorem clean_file_eq (lines : List (List Char)) :
    clean_file lines =
      (lines.filterMap clean_logger_line,
       lines.countP (fun l => (clean_logger_line l).isNone)) := by
  unfold clean_file
  rw [clean_file_loop]
  simp

theorem filterMap_length_eq (lines : List (List Char)) :
    (lines.filterMap clean_logger_line).length
      + lines.countP (fun l => (clean_logger_line l).isNone) = lines.length := by
  induction lines with
  | nil => rfl
  | cons l ls ih =>
    cases hc : clean_logger_line l with
    | none =>
      rw [List.filterMap_cons_none hc, List.countP_cons_of_pos _ _ (by simp [hc])]
      simp only [List.length_cons]
      omega
    | some c =>
      rw [List.filterMap_cons_some hc, List.countP_cons_of_neg _ _ (by simp [hc])]
      simp only [List.length_cons]
      omega

/-! ### The claims -/

/-- C1: any line containing both `logger.info` and `===` is deleted
(the classifier returns the delete marker `none`), whatever else the line
contains. -/
theorem claim_C1 (line : List Char)
    (h1 : "logger.info".toList <:+: line) (h2 : "===".toList <:+: line) :
    clean_logger_line line = none := by
  unfold clean_logger_line
  rw [if_pos h1, if_pos h2]

/-- Witness for C1 at the line `logger.info(’=== start ===’);`. -/
theorem claim_C1_witness : clean_logger_line exInfoEq = none :=
  claim_C1 exInfoEq (by decide) (by decide)

/-- C2: any line containing `logger.info`, not containing `===`, and
containing some emoji of the fixed marker set is deleted. -/
theorem claim_C2 (line : List Char)
    (h1 : "logger.info".toList <:+: line) (h2 : ¬ "===".toList <:+: line)
    (h3 : ∃ e ∈ emojis, e <:+: line) :
    clean_logger_line line = none := by
  have h4 : emojis.any (fun e => decide (e <:+: line)) = true := by
    rw [List.any_eq_true]
    obtain ⟨e, he, hei⟩ := h3
    exact ⟨e, he, by simpa using hei⟩
  unfold clean_logger_line
  rw [if_pos h1, if_neg h2, if_pos h4]

/-- Witness for C2 at the line `logger.info(’🎯 start’);`. -/
theorem claim_C2_witness : clean_logger_line exInfoEmoji = none :=
  claim_C2 exInfoEmoji (by decide) (by decide) (by decide)

/-- C3: any line containing `logger.info` but neither `===` nor any
marker emoji is returned unchanged (the warn/error rewriting step it then
reaches is a no-op on such a line). -/
theorem claim_C3 (line : List Char)
    (h1 : "logger.info".toList <:+: line) (h2 : ¬ "===".toList <:+: line)
    (h3 : ∀ e ∈ emojis, ¬ e <:+: line) :
    clean_logger_line line = some line := by
  have h4 : clean_logger_line line = some (warnErrorPass line) := by
    apply clean_some_eq
    rintro ⟨-, h5 | ⟨e, he, hei⟩⟩
    · exact h2 h5
    · exact h3 e he hei
  rw [h4]
  unfold warnErrorPass
  split
  · rw [stripEmojis_id h3]
  · rfl

/-- Witness for C3 at the line `logger.info(’loaded’);`. -/
theorem claim_C3_witness : clean_logger_line exInfoPlain = some exInfoPlain :=
  claim_C3 exInfoPlain (by decide) (by decide) (by decide)

/-- C5 counterexample: the classifier is not idempotent.  On its own
output `logger.error(’🎯 x’);` (produced from `logger.error(’✅ 🎯 x’);`,
whose `✅`-removal exposed `🎯` to the quote) a second application strips
`🎯` as well, so the second pass modifies the line. -/
theorem claim_C5_cex :
    clean_logger_line exCascadeIn = some exCascadeMid ∧
      clean_logger_line exCascadeMid ≠ some exCascadeMid := by
  constructor
  · decide
  · decide

/-- C5 (amended): re-running the classifier on a line of its own output
never deletes it (the delete decision is idempotent), though it may
modify the line further. -/
theorem claim_C5_amended (line out : List Char)
    (h : clean_logger_line line = some out) :
    clean_logger_line out ≠ none := by
  intro hdel
  rw [clean_none_iff] at hdel
  by_cases hi : "logger.info".toList <:+: line
  · have hno : ¬ ("===".toList <:+: line ∨ ∃ e ∈ emojis, e <:+: line) := by
      intro h2
      rw [(clean_none_iff line).mpr ⟨hi, h2⟩] at h
      cases h
    have hout : out = line := by
      have h4 : clean_logger_line line = some (warnErrorPass line) := by
        apply clean_some_eq
        rintro ⟨-, h5⟩
        exact hno h5
      rw [h4] at h
      injection h with h5
      rw [← h5]
      unfold warnErrorPass
      split
      · exact stripEmojis_id (fun e he hei => hno (Or.inr ⟨e, he, hei⟩))
      · rfl
    rw [hout] at hdel
    exact hno hdel.2
  · have h4 : clean_logger_line line = some (warnErrorPass line) := by
      apply clean_some_eq
      rintro ⟨h5, -⟩
      exact hi h5
    rw [h4] at h
    injection h with h5
    rw [← h5] at hdel
    apply hi
    rcases hdel with ⟨hinfo2, -⟩
    revert hinfo2
    unfold warnErrorPass
    split
    · exact fun hh => ifx_of_stripEmojis (by decide) (by decide) (by decide) hh
    · exact id

/-- Witness for the amended C5: the rewritten warn line
`logger.error(’Something failed’);` is not deleted by a second pass. -/
theorem claim_C5_amended_witness : clean_logger_line exErrClean ≠ none :=
  claim_C5_amended exErrEmoji exErrClean (by decide)

/-- C6: the reported deleted count equals the number of lines the
classifier deletes, and the output has exactly the input length minus
that count. -/
theorem claim_C6 (lines : List (List Char)) :
    (clean_file lines).2 = lines.countP (fun l => (clean_logger_line l).isNone) ∧
      (clean_file lines).1.length
        = lines.length - lines.countP (fun l => (clean_logger_line l).isNone) := by
  rw [clean_file_eq]
  refine ⟨rfl, ?_⟩
  have := filterMap_length_eq lines
  simp only
  omega

/-- C7: the sequence of lines written is exactly the non-deleted
(possibly rewritten) classifier results in input order. -/
theorem claim_C7 (lines : List (List Char)) :
    (clean_file lines).1 = lines.filterMap clean_logger_line := by
  rw [clean_file_eq]

/-- C9: completeness of the delete decision — a line is deleted exactly
when it contains `logger.info` together with `===` or a marker emoji; in
particular a line without `logger.info` is never deleted. -/
theorem claim_C9 (line : List Char) :
    clean_logger_line line = none ↔
      "logger.info".toList <:+: line ∧
        ("===".toList <:+: line ∨ ∃ e ∈ emojis, e <:+: line) :=
  clean_none_iff line

/-- C10: no-insertion invariant — every retained result is a subsequence
of the input line (characters are only ever deleted, never added or
reordered). -/
theorem claim_C10 (line out : List Char) (h : clean_logger_line line = some out) :
    out.Sublist line := by
  by_cases hdel : "logger.info".toList <:+: line ∧
      ("===".toList <:+: line ∨ ∃ e ∈ emojis, e <:+: line)
  · rw [(clean_none_iff line).mpr hdel] at h
    cases h
  · rw [clean_some_eq hdel] at h
    injection h with h2
    rw [← h2]
    unfold warnErrorPass
    split
    · exact stripEmojis_sublist line
    · exact List.Sublist.refl line

/-- Witness for C10 at `logger.error(’✅ 🎯 x’);`. -/
theorem claim_C10_witness : exCascadeMid.Sublist exCascadeIn :=
  claim_C10 exCascadeIn exCascadeMid (by decide)

/-! ### Positional analysis for a line with a single anchored emoji -/

theorem head_mem_of_ifx {a : Char} {t L : List Char} (h : (a :: t) <:+: L) : a ∈ L :=
  h.sublist.subset (List.mem_cons_self a t)

theorem emoji_head_decomp {e : List Char} (he : e ∈ emojis) :
    ∃ a t, e = a :: t ∧ a ∈ e := by
  cases e with
  | nil => exact absurd rfl (emojis_ne_nil [] he)
  | cons a t => exact ⟨a, t, rfl, List.mem_cons_self a t⟩

theorem emoji_not_ifx_free {v e2 : List Char} (he2 : e2 ∈ emojis)
    (hv : ∀ c ∈ v, ∀ e3 ∈ emojis, c ∉ e3) : ¬ e2 <:+: v := by
  intro hifx
  obtain ⟨a, t, hat, hae⟩ := emoji_head_decomp he2
  rw [hat] at hifx
  exact hv a (head_mem_of_ifx hifx) e2 he2 hae

theorem emoji_not_ifx_clean {u v : List Char} {d : Char} (hd : d ∈ delims)
    {e2 : List Char} (he2 : e2 ∈ emojis)
    (hu : ∀ c ∈ u, ∀ e3 ∈ emojis, c ∉ e3)
    (hv : ∀ c ∈ v, ∀ e3 ∈ emojis, c ∉ e3) :
    ¬ e2 <:+: (u ++ d :: v) := by
  intro hifx
  obtain ⟨a, t, hat, hae⟩ := emoji_head_decomp he2
  rw [hat] at hifx
  have ha := head_mem_of_ifx hifx
  rcases List.mem_append.mp ha with h1 | h2
  · exact hu a h1 e2 he2 hae
  · rcases List.mem_cons.mp h2 with h3 | h4
    · refine delims_not_emoji d hd e2 he2 ?_
      rw [← h3]
      exact hae
    · exact hv a h4 e2 he2 hae

theorem other_emoji_not_ifx {u v ws e e2 : List Char} {d : Char}
    (hd : d ∈ delims) (he : e ∈ emojis) (he2 : e2 ∈ emojis) (hne : e2 ≠ e)
    (hu : ∀ c ∈ u, ∀ e3 ∈ emojis, c ∉ e3)
    (hv : ∀ c ∈ v, ∀ e3 ∈ emojis, c ∉ e3)
    (hsp : ∀ c ∈ ws, pySpace c = true) :
    ¬ e2 <:+: (u ++ d :: (e ++ ws ++ v)) := by
  intro hifx
  obtain ⟨a, t, hat, hae⟩ := emoji_head_decomp he2
  rw [hat] at hifx
  have ha := head_mem_of_ifx hifx
  rcases List.mem_append.mp ha with h1 | h2
  · exact hu a h1 e2 he2 hae
  · rcases List.mem_cons.mp h2 with h3 | h4
    · refine delims_not_emoji d hd e2 he2 ?_
      rw [← h3]
      exact hae
    · rcases List.mem_append.mp h4 with h5 | h6
      · rcases List.mem_append.mp h5 with h7 | h8
        · exact hne (emojis_char_unique e2 he2 e he a hae h7)
        · have h9 := hsp a h8
          have h10 := emoji_chars_not_space e2 he2 a hae
          rw [h9] at h10
          cases h10
      · exact hv a h6 e2 he2 hae

/-- In the line `u ++ d :: (e ++ ws ++ v)` whose only emoji characters
are the designated occurrence of `e` after the delimiter `d`, the pattern
`d2 e \s+` fails to match at every suffix other than the block
`d :: (e ++ ws ++ v)` itself, for any delimiter `d2`. -/
theorem c4_none_aux {u v ws e : List Char} {d d2 : Char}
    (hd : d ∈ delims) (hd2 : d2 ∈ delims) (he : e ∈ emojis)
    (hu : ∀ c ∈ u, ∀ e2 ∈ emojis, c ∉ e2)
    (hv : ∀ c ∈ v, ∀ e2 ∈ emojis, c ∉ e2)
    (hsp : ∀ c ∈ ws, pySpace c = true) :
    ∀ s, s <:+ (u ++ d :: (e ++ ws ++ v)) → s ≠ d :: (e ++ ws ++ v) →
      stripPat d2 e s = none := by
  obtain ⟨a, t, hat, hae⟩ := emoji_head_decomp he
  intro s hs hne
  rcases sfx_append_cases hs with hB | ⟨u2, hu2, hu2ne, hseq⟩
  · rcases sfx_cons_cases hB with h1 | h2
    · exact absurd h1 hne
    · rcases sfx_append_cases h2 with h3 | ⟨a2, ha2, ha2ne, hseq2⟩
      · -- s is a suffix of v
        cases s with
        | nil => exact stripPat_nil d2 e
        | cons cv v2 =>
          by_cases hcv : cv = d2
          · apply stripPat_none_of_no_pfx
            intro hp
            rw [hat] at hp
            have hv2 : v2 <:+ v := (List.suffix_cons cv v2).trans h3
            have hhead := pfx_head hp
            cases v2 with
            | nil => cases hhead
            | cons b v3 =>
              injection hhead with hb
              have hbv : b ∈ v := hv2.sublist.subset (List.mem_cons_self b v3)
              rw [hb] at hbv
              exact hv a hbv e he hae
          · exact stripPat_none_of_ne hcv
      · -- s = a2 ++ v with a2 a nonempty suffix of e ++ ws
        rcases sfx_append_cases ha2 with h5 | ⟨e2, he2s, he2ne, heq⟩
        · -- a2 is a (nonempty) suffix of ws
          cases a2 with
          | nil => exact absurd rfl ha2ne
          | cons cw w3 =>
            subst hseq2
            have hcw : cw ∈ ws := h5.sublist.subset (List.mem_cons_self cw w3)
            have h6 := hsp cw hcw
            have h7 := delims_not_space d2 hd2
            rw [List.cons_append]
            apply stripPat_none_of_ne
            intro hcwd
            rw [hcwd, h7] at h6
            cases h6
        · -- a2 = e2 ++ ws with e2 a nonempty suffix of e
          cases e2 with
          | nil => exact absurd rfl he2ne
          | cons ce e3 =>
            subst heq
            subst hseq2
            have hce : ce ∈ e := he2s.sublist.subset (List.mem_cons_self ce e3)
            rw [List.cons_append, List.cons_append]
            apply stripPat_none_of_ne
            intro hced
            rw [hced] at hce
            exact delims_not_emoji d2 hd2 e he hce
  · -- s = u2 ++ (d :: (e ++ ws ++ v)) with u2 a nonempty suffix of u
    cases u2 with
    | nil => exact absurd rfl hu2ne
    | cons cu u3 =>
      subst hseq
      have hcu : cu ∈ u := hu2.sublist.subset (List.mem_cons_self cu u3)
      rw [List.cons_append]
      by_cases hcud : cu = d2
      · apply stripPat_none_of_no_pfx
        intro hp
        rw [hat] at hp
        have hhead := pfx_head hp
        cases u3 with
        | nil =>
          simp only [List.nil_append, List.head?_cons] at hhead
          injection hhead with hda
          rw [← hda] at hae
          exact delims_not_emoji d hd e he hae
        | cons c3 u4 =>
          simp only [List.cons_append, List.head?_cons] at hhead
          injection hhead with hca
          have hc3 : c3 ∈ u := hu2.sublist.subset (by simp)
          rw [hca] at hc3
          exact hu a hc3 e he hae
      · exact stripPat_none_of_ne hcud

/-- A `re.sub` pass with a delimiter other than the anchoring one leaves
the single-anchored-emoji line unchanged. -/
theorem c4_other_delim {u v ws e : List Char} {d d2 : Char}
    (hd : d ∈ delims) (hd2 : d2 ∈ delims) (hne : d2 ≠ d) (he : e ∈ emojis)
    (hu : ∀ c ∈ u, ∀ e2 ∈ emojis, c ∉ e2)
    (hv : ∀ c ∈ v, ∀ e2 ∈ emojis, c ∉ e2)
    (hsp : ∀ c ∈ ws, pySpace c = true) :
    reSubDelim d2 e (u ++ d :: (e ++ ws ++ v)) = u ++ d :: (e ++ ws ++ v) := by
  apply reSub_id_of_nomatch
  intro s hs
  by_cases hb : s = d :: (e ++ ws ++ v)
  · subst hb
    exact stripPat_none_of_ne (fun h => hne h.symm)
  · exact c4_none_aux hd hd2 he hu hv hsp s hs hb

/-- The `re.sub` pass with the anchoring delimiter removes exactly the
designated emoji together with the whitespace run that follows it. -/
theorem c4_match_delim {u v ws e : List Char} {d : Char}
    (hd : d ∈ delims) (he : e ∈ emojis)
    (hu : ∀ c ∈ u, ∀ e2 ∈ emojis, c ∉ e2)
    (hv : ∀ c ∈ v, ∀ e2 ∈ emojis, c ∉ e2)
    (hws : ws ≠ []) (hsp : ∀ c ∈ ws, pySpace c = true)
    (hv0 : ∀ c, v.head? = some c → pySpace c = false) :
    reSubDelim d e (u ++ d :: (e ++ ws ++ v)) = u ++ d :: v := by
  have hwalk : ∀ s, s <:+ u → s ≠ [] →
      stripPat d e (s ++ (d :: (e ++ ws ++ v))) = none := by
    intro s hs hsne
    have hsfx : s ++ (d :: (e ++ ws ++ v)) <:+ u ++ d :: (e ++ ws ++ v) := by
      obtain ⟨w, hw⟩ := hs
      exact ⟨w, by rw [← List.append_assoc, hw]⟩
    have hneq : s ++ (d :: (e ++ ws ++ v)) ≠ d :: (e ++ ws ++ v) := by
      intro heq
      have hlen := congrArg List.length heq
      simp only [List.length_append] at hlen
      apply hsne
      apply List.length_eq_zero.mp
      omega
    exact c4_none_aux hd hd he hu hv hsp _ hsfx hneq
  have hnv : ¬ e <:+: v := emoji_not_ifx_free he hv
  rw [reSub_append_nomatch u _ hwalk, reSub_match (stripPat_block hws hsp hv0),
    reSub_id_of_not_ifx hnv]

/-- The full rewriting loop on a warn/error line with a single
delimiter-anchored emoji occurrence: the emoji and its following
whitespace run are removed, the delimiter kept, everything else kept. -/
theorem stripEmojis_single {u v ws e : List Char} {d : Char}
    (hd : d ∈ delims) (he : e ∈ emojis)
    (hu : ∀ c ∈ u, ∀ e2 ∈ emojis, c ∉ e2)
    (hv : ∀ c ∈ v, ∀ e2 ∈ emojis, c ∉ e2)
    (hws : ws ≠ []) (hsp : ∀ c ∈ ws, pySpace c = true)
    (hv0 : ∀ c, v.head? = some c → pySpace c = false) :
    stripEmojis (u ++ d :: (e ++ ws ++ v)) = u ++ d :: v := by
  obtain ⟨pre, post, hemo⟩ := List.append_of_mem he
  have hnodup := emojis_nodup
  rw [hemo, List.nodup_middle, List.nodup_cons] at hnodup
  have hepre : e ∉ pre := fun hmem => hnodup.1 (List.mem_append_left post hmem)
  have hprein : ∀ x ∈ pre, x ∈ emojis := fun x hx => by
    rw [hemo]; exact List.mem_append_left _ hx
  have hpostin : ∀ x ∈ post, x ∈ emojis := fun x hx => by
    rw [hemo]; exact List.mem_append_right _ (List.mem_cons_of_mem e hx)
  have hsub : subThree e (u ++ d :: (e ++ ws ++ v)) = u ++ d :: v := by
    have hother : ∀ d2, d2 ∈ delims → d2 ≠ d →
        reSubDelim d2 e (u ++ d :: (e ++ ws ++ v)) = u ++ d :: (e ++ ws ++ v) :=
      fun d2 hd2 hne => c4_other_delim hd hd2 hne he hu hv hsp
    have hmatch : reSubDelim d e (u ++ d :: (e ++ ws ++ v)) = u ++ d :: v :=
      c4_match_delim hd he hu hv hws hsp hv0
    have hafter : ∀ d2, reSubDelim d2 e (u ++ d :: v) = u ++ d :: v :=
      fun d2 => reSub_id_of_not_ifx (emoji_not_ifx_clean hd he hu hv)
    have hd3 : d = btick ∨ d = squote ∨ d = dquote := by
      simpa [delims] using hd
    unfold subThree
    rcases hd3 with h | h | h
    · subst h
      rw [hmatch, hafter squote, hafter dquote]
    · subst h
      rw [hother btick (by decide) (by decide), hmatch, hafter dquote]
    · subst h
      rw [hother btick (by decide) (by decide),
        hother squote (by decide) (by decide), hmatch]
  unfold stripEmojis
  rw [hemo, List.foldl_append]
  rw [foldl_subThree_id pre _ (fun e2 he2 =>
    other_emoji_not_ifx hd he (hprein e2 he2)
      (fun heq => hepre (heq ▸ he2)) hu hv hsp)]
  rw [List.foldl_cons, hsub]
  exact foldl_subThree_id post _ (fun e2 he2 =>
    emoji_not_ifx_clean hd (hpostin e2 he2) hu hv)

theorem head_not_space_aux {v : List Char} {b : Char} (hb : v.head? = some b)
    (hps : pySpace b = false) : ∀ c, v.head? = some c → pySpace c = false := by
  intro c hc
  rw [hb] at hc
  injection hc with h
  rw [← h]
  exact hps

/-- C4 counterexample: on `logger.error(’🎯 ✅ 🎯 x’);` the script
returns `logger.error(’🎯 x’);`.  That output differs both from the
result of removing only the delimiter-adjacent occurrence
(`logger.error(’✅ 🎯 x’);`) and from the result of iterating such
removals to a fixpoint (`logger.error(’x’);`): the per-emoji sequential
passes remove the exposed `✅` (listed after `🎯`) but keep the second
`🎯` (whose pass had already run). -/
theorem claim_C4_cex :
    clean_logger_line exC4in = some exCascadeMid ∧
      exCascadeMid ≠ exC4oneRemoved ∧ exCascadeMid ≠ exErrPlain := by
  refine ⟨by decide, by decide, by decide⟩

/-- C4 (amended): for a `logger.error`/`logger.warn` line (not containing
`logger.info`) of the shape `u ++ d :: (e ++ ws ++ v)` — a configured
emoji `e` immediately after a backtick/quote/double-quote delimiter `d`,
followed by a maximal nonempty whitespace run `ws`, where `u` and `v`
contain no character of any configured emoji — the classifier removes
exactly the emoji and that whitespace run, preserves the delimiter and
alters nothing else; in particular `logger.error(’❌ Something failed’);`
becomes `logger.error(’Something failed’);`.  (When further emoji
occurrences are present the per-emoji passes may cascade, as the
counterexample shows.) -/
theorem claim_C4_amended (u v ws e : List Char) (d : Char)
    (hd : d ∈ delims) (he : e ∈ emojis)
    (herr : "logger.error".toList <:+: (u ++ d :: (e ++ ws ++ v)) ∨
      "logger.warn".toList <:+: (u ++ d :: (e ++ ws ++ v)))
    (hinfo : ¬ "logger.info".toList <:+: (u ++ d :: (e ++ ws ++ v)))
    (hu : ∀ c ∈ u, ∀ e2 ∈ emojis, c ∉ e2)
    (hv : ∀ c ∈ v, ∀ e2 ∈ emojis, c ∉ e2)
    (hws : ws ≠ []) (hsp : ∀ c ∈ ws, pySpace c = true)
    (hv0 : ∀ c, v.head? = some c → pySpace c = false) :
    clean_logger_line (u ++ d :: (e ++ ws ++ v)) = some (u ++ d :: v) := by
  have h4 : clean_logger_line (u ++ d :: (e ++ ws ++ v))
      = some (warnErrorPass (u ++ d :: (e ++ ws ++ v))) := by
    apply clean_some_eq
    rintro ⟨h5, -⟩
    exact hinfo h5
  rw [h4]
  unfold warnErrorPass
  rw [if_pos herr, stripEmojis_single hd he hu hv hws hsp hv0]

/-- Witness for the amended C4: the spec’s own example,
`logger.error(’❌ Something failed’);` ↦ `logger.error(’Something failed’);`. -/
theorem claim_C4_amended_witness :
    clean_logger_line ("logger.error(".toList ++ squote ::
        ([Char.ofNat 0x274C] ++ [Char.ofNat 0x20] ++
          ("Something failed".toList ++ squote :: ");".toList)))
      = some ("logger.error(".toList ++ squote ::
          ("Something failed".toList ++ squote :: ");".toList)) :=
  claim_C4_amended "logger.error(".toList
    ("Something failed".toList ++ squote :: ");".toList)
    [Char.ofNat 0x20] [Char.ofNat 0x274C] squote
    (by decide) (by decide) (by decide) (by decide) (by decide) (by decide)
    (by decide) (by decide)
    (head_not_space_aux (b := Char.ofNat 0x53) (by decide) (by decide))

/-- C8 counterexample: a line containing `logger.error` and no configured
emoji is nevertheless deleted (not returned unchanged) when it also
contains `logger.info` and `===`. -/
theorem claim_C8_cex :
    "logger.error".toList <:+: exInfoEqErr ∧
      (∀ e ∈ emojis, ¬ e <:+: exInfoEqErr) ∧
      clean_logger_line exInfoEqErr = none := by
  refine ⟨by decide, by decide, by decide⟩

/-- C8 (amended): a line containing `logger.error` or `logger.warn` with
no configured emoji, and not deleted by the info rule (i.e. not
containing both `logger.info` and `===`), is returned byte-for-byte
unchanged. -/
theorem claim_C8_amended (line : List Char)
    (h1 : "logger.error".toList <:+: line ∨ "logger.warn".toList <:+: line)
    (h2 : ∀ e ∈ emojis, ¬ e <:+: line)
    (h3 : ¬ ("logger.info".toList <:+: line ∧ "===".toList <:+: line)) :
    clean_logger_line line = some line := by
  have h4 : clean_logger_line line = some (warnErrorPass line) := by
    apply clean_some_eq
    rintro ⟨hinfo, h5 | ⟨e, he, hei⟩⟩
    · exact h3 ⟨hinfo, h5⟩
    · exact h2 e he hei
  rw [h4]
  unfold warnErrorPass
  rw [if_pos h1, stripEmojis_id h2]

/-- Witness for the amended C8 at `logger.error(’x’);`. -/
theorem claim_C8_amended_witness : clean_logger_line exErrPlain = some exErrPlain :=
  claim_C8_amended exErrPlain (by decide) (by decide) (by decide)

end CleanLogs
